import Mathlib

/-!
# Verification of the splatflac CUE-sheet core

Shallow embedding of `splatflac.py` (CUE parsing, timecode conversion,
filename sanitizing and the track-plan builder) together with proofs
settling the specification claims.

Conventions of the embedding:
* Python `str` is modelled as Lean `String` / `List Char`; the
  case-conversion and whitespace classification used by the source are
  modelled over ASCII (the CUE keywords and all inputs of interest are
  ASCII).
* `fractions.Fraction` is modelled as `ℚ`.
* `decimal.Decimal` arithmetic under the module-level context
  `getcontext().prec = 18` is modelled value-wise: a division rounds the
  exact quotient to 18 significant digits (round-half-even), and
  `quantize(Decimal("0.000001"), ROUND_HALF_UP)` rounds half-up to six
  fractional digits, failing (`InvalidOperation`) when the resulting
  coefficient needs more than 18 digits.
* I/O is abstracted: the CUE document is a list of already-decoded lines,
  and the file-existence check performed on `FILE` lines consults a
  predicate `fs : String → Bool` standing for the sibling files present
  on disk.
* Fallible Python code (raising `ValueError` etc.) returns `Except CueErr`.
-/

/- `Rat.mul`/`Rat.add` are `@[irreducible]` in Batteries, which blocks
evaluating concrete witnesses by `decide`; restore the default
reducibility (the definitions are unchanged). -/
set_option allowUnsafeReducibility true in
attribute [semireducible] Rat.mul Rat.add Rat.sub Rat.inv Rat.div

deriving instance DecidableEq for Except

/-- Error kinds of the core, one constructor per distinct raise site of the
source (the spec names them `FormatError`, `RangeError`, …; in the source
they are `ValueError` / `FileNotFoundError` with distinct messages).
`shlexError` is the `ValueError` escaping from `shlex.split` on an
unclosed quotation. -/
inductive CueErr where
  | formatError
  | rangeError
  | sequenceError
  | duplicateError
  | notFoundError
  | emptySheet
  | emptyFile
  | missingTitle
  | missingIndex
  | shlexError
  deriving DecidableEq, Repr

/-- Whitespace stripped by Python `str.strip()` and matched by the regex
class `\s` (ASCII part). -/
def pyIsSpace (c : Char) : Bool :=
  c = ' ' || c = '\t' || c = '\n' || c = '\r' || c = '\x0b' || c = '\x0c'

/-- Whitespace used by `shlex` to separate tokens (`shlex.whitespace`). -/
def shIsSpace (c : Char) : Bool :=
  c = ' ' || c = '\t' || c = '\r' || c = '\n'

/-- The lowercase-to-uppercase letter table of ASCII. -/
def lowUp : List (Char × Char) :=
  [('a', 'A'), ('b', 'B'), ('c', 'C'), ('d', 'D'), ('e', 'E'), ('f', 'F'),
   ('g', 'G'), ('h', 'H'), ('i', 'I'), ('j', 'J'), ('k', 'K'), ('l', 'L'),
   ('m', 'M'), ('n', 'N'), ('o', 'O'), ('p', 'P'), ('q', 'Q'), ('r', 'R'),
   ('s', 'S'), ('t', 'T'), ('u', 'U'), ('v', 'V'), ('w', 'W'), ('x', 'X'),
   ('y', 'Y'), ('z', 'Z')]

/-- Python `str.upper()` restricted to ASCII, as an explicit letter table
so that proofs can invert it by deciding over the table. -/
def pyUpper (c : Char) : Char :=
  ((lowUp.find? (fun p => p.1 = c)).map Prod.snd).getD c

/-- `p` is a prefix of `l` (Python `str.startswith`, on char lists). -/
def stw (l p : List Char) : Bool :=
  match p, l with
  | [], _ => true
  | _ :: _, [] => false
  | pc :: ps, c :: cs => c = pc && stw cs ps

/-- Python `str.strip()`: drop leading and trailing whitespace. -/
def trimChars (cs : List Char) : List Char :=
  ((cs.dropWhile pyIsSpace).reverse.dropWhile pyIsSpace).reverse

/-- First whitespace-delimited word of a line (used to state which keyword
a line carries). -/
def firstWord (cs : List Char) : List Char :=
  cs.takeWhile (fun c => !pyIsSpace c)

/-- The reserved characters `< > : " / \ | ? *` of `WINDOWS_RESERVED_RE`. -/
def isReserved (c : Char) : Bool :=
  c = '<' || c = '>' || c = ':' || c = '"' || c = '/' || c = '\\' ||
  c = '|' || c = '?' || c = '*'

/-- Python `str.replace("..", "__")`: left-to-right, non-overlapping. -/
def replaceDots : List Char → List Char
  | '.' :: '.' :: rest => '_' :: '_' :: replaceDots rest
  | c :: rest => c :: replaceDots rest
  | [] => []

/-- `sanitize_filename` from the source: substitute the reserved characters
with `_`, replace the substring `..` by `__`, strip, and fall back to
`"untitled"` when empty. -/
def sanitize_filename (value : String) : String :=
  let cleaned := value.data.map (fun c => if isReserved c then '_' else c)
  let cleaned := trimChars (replaceDots cleaned)
  if cleaned = [] then "untitled" else ⟨cleaned⟩

/-- Modelled from the spec (§4.2), for comparison with the source's
`sanitize_filename`: "replaces every character from the reserved set
`< > : " / \ | ? *` with `_`; replaces every occurrence of the literal
substring `..` with `__`; trims leading/trailing whitespace; if the result
is empty, returns the literal fallback `untitled`." -/
def sanitizeSpec (value : String) : String :=
  let step1 := value.data.map (fun c => if isReserved c then '_' else c)
  let step2 := replaceDots step1
  let step3 := trimChars step2
  if step3 = [] then "untitled" else ⟨step3⟩

/-- ASCII decimal digit (the regex `\d`, ASCII model). -/
def isDig (c : Char) : Bool := '0' ≤ c && c ≤ '9'

/-- Numeric value of a digit character. -/
def dVal (c : Char) : ℕ := c.toNat - 48

/-- Python `int` on a string of decimal digits. -/
def digitsVal (ds : List Char) : ℕ := ds.foldl (fun n c => 10 * n + dVal c) 0

/-- The match of `TIME_RE = ^(\d+):(\d{2}):(\d{2})$` against a string,
returning the numeric values of the three groups.  The first group is the
maximal digit run (greedy `\d+`; no shorter run can match since the next
pattern character `:` is not a digit).  Python's `$` (without
`re.MULTILINE`) matches at the end of the string or just before one final
newline, so after the last digit pair the remainder must be empty or a
single trailing `'\n'`. -/
def timeMatch (cs : List Char) : Option (ℕ × ℕ × ℕ) :=
  if cs.takeWhile isDig = [] then none
  else
    match cs.dropWhile isDig with
    | ':' :: a :: b :: ':' :: c :: d :: rest =>
      if isDig a && isDig b && isDig c && isDig d then
        if rest = [] ∨ rest = ['\n'] then
          some (digitsVal (cs.takeWhile isDig), 10 * dVal a + dVal b, 10 * dVal c + dVal d)
        else none
      else none
    | _ => none

/-- `parse_timecode` from the source: `mm:ss:ff` (75 fps) to exact
fractional seconds, `Fraction(minutes*60+seconds, 1) + Fraction(frames, 75)`. -/
def parse_timecode (value : String) : Except CueErr ℚ :=
  match timeMatch value.data with
  | none => .error .formatError
  | some (minutes, seconds, frames) =>
    if seconds ≥ 60 then .error .rangeError
    else if frames ≥ 75 then .error .rangeError
    else .ok ((minutes : ℚ) * 60 + (seconds : ℚ) + (frames : ℚ) / 75)

/-- Round a rational to an integer, ties to even (`ROUND_HALF_EVEN`, the
default rounding of the `decimal` context used for division). -/
def roundHE (v : ℚ) : ℤ :=
  let f := ⌊v⌋
  let r := v - f
  if r < 1/2 then f
  else if 1/2 < r then f + 1
  else if f % 2 = 0 then f else f + 1

/-- Round a rational to an integer, ties away from zero (`ROUND_HALF_UP`). -/
def roundHU (v : ℚ) : ℤ :=
  if 0 ≤ v then ⌊v + 1/2⌋ else -⌊-v + 1/2⌋

/-- Number of decimal digits of `n`, with explicit fuel (adequate whenever
`fuel ≥ n`). -/
def digLenF : ℕ → ℕ → ℕ
  | 0, _ => 1
  | fuel + 1, n => if n < 10 then 1 else digLenF fuel (n / 10) + 1

/-- Number of decimal digits of `n` (`digLen 0 = 1`). -/
def digLen (n : ℕ) : ℕ := digLenF n n

/-- Least `k` with `m ≤ 10 ^ k` (`Nat.clog 10`, in a form the kernel can
evaluate). -/
def natClog10 (m : ℕ) : ℕ := if m ≤ 1 then 0 else digLen (m - 1)

/-- `⌊log₁₀ v⌋` of a positive rational — the adjusted exponent of the
`Decimal` holding `v`: one less than the digit count of the integer part
when `v ≥ 1`, and `-⌈log₁₀ v⁻¹⌉` when `v < 1`. -/
def adjExp (v : ℚ) : ℤ :=
  if 1 ≤ v then (digLen ⌊v⌋₊ : ℤ) - 1 else -(natClog10 ⌈v⁻¹⌉₊ : ℤ)

/-- Helper for `div18`: round a positive rational half-even to 18
significant digits (the coefficient grid is anchored at the adjusted
exponent `adjExp v`). -/
def div18Pos (v : ℚ) : ℚ :=
  (roundHE (v * (10 : ℚ) ^ ((17 : ℤ) - adjExp v)) : ℚ) *
    (10 : ℚ) ^ (adjExp v - 17)

/-- Value of `Decimal(n)/Decimal(d)` under `getcontext().prec = 18`: the
exact quotient rounded half-even to 18 significant digits (an exact
quotient representable within 18 digits is returned unchanged, which this
rounding does). -/
def div18 (v : ℚ) : ℚ :=
  if v = 0 then 0
  else if 0 < v then div18Pos v
  else -div18Pos (-v)

/-- Left-pad a numeral string with `'0'` to a given width (Python
`f"{n:0Nd}"` for non-negative `n`). -/
def padZeros (width : ℕ) (s : String) : String :=
  ⟨List.replicate (width - s.length) '0' ++ s.data⟩

/-- `str()` of a `Decimal` with exponent `-6`: the coefficient `c` printed
with a decimal point before its last six digits. -/
def renderDec6 (c : ℤ) : String :=
  (if c < 0 then "-" else "") ++
    toString (c.natAbs / 1000000) ++ "." ++ padZeros 6 (toString (c.natAbs % 1000000))

/-- `fraction_to_timestamp` from the source:
`str((Decimal(num)/Decimal(den)).quantize(Decimal("0.000001"), ROUND_HALF_UP))`
under the module context `prec = 18`.  The division rounds to 18
significant digits; the quantize step rounds half-up to six fractional
digits and signals `InvalidOperation` (modelled as `none`) when the
resulting coefficient exceeds 18 digits. -/
def fraction_to_timestamp (value : ℚ) : Option String :=
  let q := div18 value
  let c := roundHU (q * 1000000)
  if c.natAbs < 10 ^ 18 then some (renderDec6 c) else none

/-- Modelled from the spec (§4.1), for comparison with the source's
`fraction_to_timestamp`: "renders the rational as a decimal string
truncated/rounded to exactly 6 fractional digits using round-half-up
(ties round away from zero)". -/
def renderHU6 (value : ℚ) : String :=
  renderDec6 (roundHU (value * 1000000))

/-- Scanner state of `shlex` (posix mode): outside quotes (`norm`, with
the token built so far reversed, `none` when no token is open), inside
single or double quotes, or just after an escape character (`normEsc`,
`doubleEsc`). -/
inductive ShState where
  | norm : Option (List Char) → ShState
  | normEsc : Option (List Char) → ShState
  | single : List Char → ShState
  | double : List Char → ShState
  | doubleEsc : List Char → ShState

/-- `shlex.split(line, posix=True)` (as called by the source:
`whitespace_split = True`, comments disabled), one character per step.
Outside quotes, whitespace ends a token, a quote enters quoted mode, a
backslash escapes the next character; inside single quotes everything is
literal; inside double quotes a backslash escapes only `"` and `\`; end
of input inside quotes or after an escape raises "No closing quotation" /
"No escaped character" (a `ValueError`). -/
def shlexLoop : List Char → ShState → Except CueErr (List (List Char))
  | [], .norm none => .ok []
  | [], .norm (some acc) => .ok [acc.reverse]
  | [], .normEsc _ => .error .shlexError
  | [], .single _ => .error .shlexError
  | [], .double _ => .error .shlexError
  | [], .doubleEsc _ => .error .shlexError
  | c :: cs, .norm acc =>
    if shIsSpace c then
      match acc with
      | none => shlexLoop cs (.norm none)
      | some a => (shlexLoop cs (.norm none)).map (fun ts => a.reverse :: ts)
    else if c = '\'' then shlexLoop cs (.single (acc.getD []))
    else if c = '"' then shlexLoop cs (.double (acc.getD []))
    else if c = '\\' then shlexLoop cs (.normEsc acc)
    else shlexLoop cs (.norm (some (c :: acc.getD [])))
  | c :: cs, .normEsc acc => shlexLoop cs (.norm (some (c :: acc.getD [])))
  | c :: cs, .single acc =>
    if c = '\'' then shlexLoop cs (.norm (some acc))
    else shlexLoop cs (.single (c :: acc))
  | c :: cs, .double acc =>
    if c = '"' then shlexLoop cs (.norm (some acc))
    else if c = '\\' then shlexLoop cs (.doubleEsc acc)
    else shlexLoop cs (.double (c :: acc))
  | c :: cs, .doubleEsc acc =>
    if c = '"' ∨ c = '\\' then shlexLoop cs (.double (c :: acc))
    else shlexLoop cs (.double (c :: '\\' :: acc))

/-- `shlex.split` returning the tokens as strings. -/
def shlexSplit (cs : List Char) : Except CueErr (List String) :=
  (shlexLoop cs (.norm none)).map (List.map List.asString)

/-- Did the pattern `\s+\S+` match at `r` (used for the tail of
`FILE_RE`: the mandatory file-type token after the path)? -/
def wsThenWord (r : List Char) : Bool :=
  match r.dropWhile pyIsSpace with
  | [] => false
  | _ :: _ => (r.dropWhile pyIsSpace).length < r.length

/-- The unquoted alternative `(\S+)` of `FILE_RE`, followed by `\s+\S+`:
the greedy maximal non-space run is the only candidate (backtracking it
would put a non-space character where `\s` is required). -/
def fileUnquoted (r : List Char) : Option (List Char) :=
  match r.takeWhile (fun c => !pyIsSpace c) with
  | [] => none
  | w => if wsThenWord (r.dropWhile (fun c => !pyIsSpace c)) then some w else none

/-- `FILE_RE = ^\s*FILE\s+(?:"([^"]+)"|(\S+))\s+\S+` (IGNORECASE) applied
to the raw line, returning the extracted path (`parse_file_line`).
The quoted alternative takes the nonempty run up to the next `"`; if it
fails (no closing quote, empty content, or no type token after it) the
regex engine falls back to the unquoted alternative starting at the same
position. -/
def fileLineMatch (cs : List Char) : Option (List Char) :=
  let rest0 := cs.dropWhile pyIsSpace
  if stw (rest0.map pyUpper) "FILE".data then
    let r1 := rest0.drop 4
    let r2 := r1.dropWhile pyIsSpace
    if r2.length < r1.length then
      match r2 with
      | '"' :: r3 =>
        let content := r3.takeWhile (fun c => c ≠ '"')
        (match content, r3.dropWhile (fun c => c ≠ '"') with
         | _ :: _, '"' :: r5 =>
           if wsThenWord r5 then some content else fileUnquoted r2
         | _, _ => fileUnquoted r2)
      | _ => fileUnquoted r2
    else none
  else none

/-- Continuation of an integer literal after its first digit: further
digits, with single underscores allowed only between digits (Python 3
digit grouping, `int("1_0") = 10`, but `1__0`, `1_` and `_1` are
rejected). -/
def digitsUnd : List Char → Bool
  | [] => true
  | '_' :: c :: rest => isDig c && digitsUnd rest
  | c :: rest => isDig c && digitsUnd rest

/-- A valid unsigned integer literal body for Python `int`: a digit
followed by digits with single underscores between digits. -/
def intDigits : List Char → Bool
  | [] => false
  | c :: rest => isDig c && digitsUnd rest

/-- Python `int(text)` (ASCII model): optional surrounding whitespace,
optional sign, then digits with single underscores allowed between
digits; the value ignores the underscores. -/
def pyInt (s : String) : Option ℤ :=
  match trimChars s.data with
  | '+' :: ds =>
    if intDigits ds then some (digitsVal (ds.filter (fun c => c ≠ '_'))) else none
  | '-' :: ds =>
    if intDigits ds then some (-(digitsVal (ds.filter (fun c => c ≠ '_')) : ℤ)) else none
  | ds =>
    if intDigits ds then some (digitsVal (ds.filter (fun c => c ≠ '_'))) else none

/-- The `Track` dataclass. -/
structure Track where
  number : ℤ
  title : Option String := none
  performer : Option String := none
  start : Option ℚ := none
  deriving DecidableEq, Repr

/-- The `FileEntry` dataclass (the path is kept as the file name extracted
from the `FILE` line; resolution against the CUE's directory is out of the
model). -/
structure FileEntry where
  path : String
  tracks : List Track
  deriving DecidableEq, Repr

/-- The `CueSheet` dataclass. -/
structure CueSheet where
  entries : List FileEntry
  album_title : Option String := none
  album_performer : Option String := none
  deriving DecidableEq, Repr

/-- The mutable state of `parse_cue`'s line loop.  The source aliases
`current_file` into `file_entries` and `current_track` into
`current_file.tracks`; here the open entry is kept apart as
`curPath`/`curTracks`, the open track as `curTrack`, and `closeEntries`
reassembles `file_entries`. -/
structure PState where
  closed : List FileEntry
  curPath : Option String
  curTracks : List Track
  curTrack : Option Track
  album_title : Option String
  album_performer : Option String
  deriving DecidableEq, Repr

/-- The state at the start of the line loop. -/
def initState : PState := ⟨[], none, [], none, none, none⟩

/-- The `file_entries` list this state denotes (the open entry, if any,
with its open track appended). -/
def closeEntries (s : PState) : List FileEntry :=
  s.closed ++ (match s.curPath with
    | some p => [⟨p, s.curTracks ++ s.curTrack.toList⟩]
    | none => [])

/-- One iteration of `parse_cue`'s loop on a raw line: strip, skip blank
and `REM` lines, then dispatch on the (case-insensitively matched) leading
keyword; unrecognized lines fall through with no effect. -/
def processLine (fs : String → Bool) (s : PState) (raw : String) :
    Except CueErr PState :=
  let line := trimChars raw.data
  if line = [] then .ok s
  else if stw line "REM".data then .ok s
  else if stw (line.map pyUpper) "FILE ".data then
    match fileLineMatch raw.data with
    | none => .error .formatError
    | some name =>
      if fs name.asString then
        .ok { s with
          closed := closeEntries s, curPath := some name.asString,
          curTracks := [], curTrack := none }
      else .error .notFoundError
  else if stw (line.map pyUpper) "TRACK ".data then
    if s.curPath = none then .error .sequenceError
    else
      match shlexSplit line with
      | .error e => .error e
      | .ok toks =>
        match toks with
        | _ :: t1 :: _ =>
          match pyInt t1 with
          | none => .error .formatError
          | some n =>
            .ok { s with
              curTracks := s.curTracks ++ s.curTrack.toList,
              curTrack := some { number := n } }
        | _ => .error .formatError
  else if stw (line.map pyUpper) "TITLE ".data then
    match shlexSplit line with
    | .error e => .error e
    | .ok toks =>
      match toks with
      | _ :: t1 :: _ =>
        (match s.curTrack with
         | none =>
           if s.album_title = none then .ok { s with album_title := some t1 }
           else .ok s
         | some tr => .ok { s with curTrack := some { tr with title := some t1 } })
      | _ => .error .formatError
  else if stw (line.map pyUpper) "PERFORMER ".data then
    match shlexSplit line with
    | .error e => .error e
    | .ok toks =>
      match toks with
      | _ :: t1 :: _ =>
        (match s.curTrack with
         | none =>
           if s.album_performer = none then .ok { s with album_performer := some t1 }
           else .ok s
         | some tr => .ok { s with curTrack := some { tr with performer := some t1 } })
      | _ => .error .formatError
  else if stw (line.map pyUpper) "INDEX ".data then
    match s.curTrack with
    | none => .error .sequenceError
    | some tr =>
      match shlexSplit line with
      | .error e => .error e
      | .ok toks =>
        match toks with
        | _ :: t1 :: t2 :: _ =>
          if t1 ≠ "01" then .ok s
          else if tr.start ≠ none then .error .duplicateError
          else
            match parse_timecode t2 with
            | .error e => .error e
            | .ok q => .ok { s with curTrack := some { tr with start := some q } }
        | _ => .error .formatError
  else .ok s

/-- The whole line loop. -/
def runLines (fs : String → Bool) (lines : List String) : Except CueErr PState :=
  lines.foldlM (processLine fs) initState

/-- Per-track post-parse validation (title before start, as in the source). -/
def validTrack (t : Track) : Except CueErr Unit :=
  if t.title = none then .error .missingTitle
  else if t.start = none then .error .missingIndex
  else .ok ()

/-- Per-entry post-parse validation. -/
def validEntry (e : FileEntry) : Except CueErr Unit :=
  if e.tracks = [] then .error .emptyFile
  else e.tracks.forM validTrack

/-- Post-parse global validation, run once after the line loop. -/
def validateSheet (entries : List FileEntry) : Except CueErr Unit :=
  if entries = [] then .error .emptySheet
  else entries.forM validEntry

/-- `parse_cue` from the source: fold the line loop over the document,
then validate globally and assemble the `CueSheet`. -/
def parse_cue (fs : String → Bool) (lines : List String) :
    Except CueErr CueSheet :=
  (runLines fs lines).bind fun s =>
    (validateSheet (closeEntries s)).bind fun _ =>
      .ok ⟨closeEntries s, s.album_title, s.album_performer⟩

/-- A work item of the plan: one `run_ffmpeg` invocation of `split_files`
(source path, output file name, `-ss` start, optional `-to` end, and the
`-metadata` pairs in insertion order). -/
structure WorkItem where
  source : String
  outputName : String
  startTime : Option ℚ
  endTime : Option ℚ
  tags : List (String × String)
  deriving DecidableEq, Repr

/-- `f"{n:02d}"`: decimal rendering of an integer, left-padded with zeros
to a minimum width of 2 (the sign counts towards the width). -/
def pad2 (n : ℤ) : String :=
  if n < 0 then toString n else padZeros 2 (toString n.natAbs)

/-- `all(a < b for a, b in zip(track_numbers, track_numbers[1:]))`. -/
def pairsLt : List ℤ → Bool
  | a :: b :: r => a < b && pairsLt (b :: r)
  | _ => true

/-- All track numbers of the sheet in document order. -/
def trackNumbers (sheet : CueSheet) : List ℤ :=
  (sheet.entries.map (fun e => e.tracks.map (·.number))).flatten

/-- Python truthiness of an optional string (`None` and `""` are falsy). -/
def truthy : Option String → Option String
  | some s => if s = "" then none else some s
  | none => none

/-- The metadata mapping built for one track when tagging is requested
(`TRACKNUMBER`, `TITLE`, then `ALBUM` if the sheet has a truthy
album title, then `ARTIST`/`ALBUMARTIST` from `track.performer or
cue.album_performer` when truthy). -/
def trackTags (sheet : CueSheet) (t : Track) : List (String × String) :=
  [("TRACKNUMBER", toString t.number), ("TITLE", (t.title.getD ""))] ++
  (match truthy sheet.album_title with
   | some a => [("ALBUM", a)]
   | none => []) ++
  (match truthy ((truthy t.performer).orElse (fun _ => sheet.album_performer)) with
   | some p => [("ARTIST", p), ("ALBUMARTIST", p)]
   | none => [])

/-- The output file name chosen by `split_files` for a track. -/
def outName (monotonic : Bool) (fileIndex : ℕ) (t : Track) : String :=
  (if monotonic then pad2 t.number
   else pad2 (fileIndex : ℤ) ++ "-" ++ pad2 t.number) ++
  " - " ++ sanitize_filename (t.title.getD "") ++ ".flac"

/-- The inner loop of `split_files` over one entry's tracks: the end time
is the next track's start within the same file, absent for the last. -/
def entryItems (tagOutput : Bool) (sheet : CueSheet) (monotonic : Bool)
    (fileIndex : ℕ) (path : String) : List Track → List WorkItem
  | [] => []
  | t :: rest =>
    { source := path
      outputName := outName monotonic fileIndex t
      startTime := t.start
      endTime := match rest with
        | [] => none
        | t' :: _ => t'.start
      tags := if tagOutput then trackTags sheet t else [] } ::
    entryItems tagOutput sheet monotonic fileIndex path rest

/-- The outer loop of `split_files` over the entries, with 1-based file
index. -/
def planFiles (tagOutput : Bool) (sheet : CueSheet) (monotonic : Bool) :
    ℕ → List FileEntry → List WorkItem
  | _, [] => []
  | fileIndex, e :: rest =>
    entryItems tagOutput sheet monotonic fileIndex e.path e.tracks ++
    planFiles tagOutput sheet monotonic (fileIndex + 1) rest

/-- The track plan derived by `split_files` from a parsed sheet (the
ffmpeg invocations, output-existence checks and printing are outside the
model). -/
def split_plan (tagOutput : Bool) (sheet : CueSheet) : List WorkItem :=
  planFiles tagOutput sheet (pairsLt (trackNumbers sheet)) 1 sheet.entries

/-- A track that passes per-track validation: title and start are set. -/
def trackFilled (t : Track) : Prop := t.title ≠ none ∧ t.start ≠ none

/-- An entry that passes per-entry validation. -/
def entryFilled (e : FileEntry) : Prop :=
  e.tracks ≠ [] ∧ ∀ t ∈ e.tracks, trackFilled t

/-- The end times the claim prescribes for a file's tracks: each track's
end is the next track's start within the same file, the last is absent
(statement apparatus for the plan builder claims). -/
def nextEnds : List Track → List (Option ℚ)
  | [] => []
  | [_] => [none]
  | _ :: t' :: r => t'.start :: nextEnds (t' :: r)

/-- Modelled from the spec (§4.4), for comparison with the source's
`split_plan`: the output filename of every track is
`"<stem> - <sanitized title>.flac"`, the stem being the zero-padded
2-digit track number when the sheet-wide monotonic flag holds and
otherwise the zero-padded 2-digit 1-based file index joined to the
zero-padded 2-digit track number by a hyphen. -/
def specNames (monotonic : Bool) : ℕ → List FileEntry → List String
  | _, [] => []
  | i, e :: r =>
    e.tracks.map (fun t =>
      (if monotonic then pad2 t.number
       else pad2 (i : ℤ) ++ "-" ++ pad2 t.number) ++
      " - " ++ sanitize_filename (t.title.getD "") ++ ".flac") ++
    specNames monotonic (i + 1) r

/-- The shape `minutes:seconds:frames` named by the claims about
`parse_timecode`: a nonempty run of digits, a colon, exactly two digits, a
colon, exactly two digits (statement apparatus; `ds` and `a b c d` are the
three groups). -/
def TimeShape (cs ds : List Char) (a b c d : Char) : Prop :=
  cs = ds ++ ':' :: a :: b :: ':' :: c :: d :: [] ∧ ds ≠ [] ∧
  ds.all isDig = true ∧ isDig a = true ∧ isDig b = true ∧
  isDig c = true ∧ isDig d = true

/-- The shape actually accepted by `TIME_RE`: the claimed
`minutes:seconds:frames` shape optionally followed by one trailing
newline, which Python's `$` anchor also matches before. -/
def TimeShapeNl (cs ds : List Char) (a b c d : Char) : Prop :=
  (cs = ds ++ ':' :: a :: b :: ':' :: c :: d :: [] ∨
   cs = ds ++ ':' :: a :: b :: ':' :: c :: d :: '\n' :: []) ∧ ds ≠ [] ∧
  ds.all isDig = true ∧ isDig a = true ∧ isDig b = true ∧
  isDig c = true ∧ isDig d = true

/-! ## Theorems settling the claims -/

/-- Every character kept by `takeWhile isDig` is a digit. -/
theorem all_isDig_takeWhile (cs : List Char) :
    (cs.takeWhile isDig).all isDig = true := by
  induction cs with
  | nil => rfl
  | cons c cs ih => by_cases h : isDig c <;> simp [List.takeWhile_cons, h, ih]

/-- A digit run followed by a colon is exactly what `takeWhile isDig` keeps. -/
theorem takeWhile_isDig_append (ds tl : List Char) (h : ds.all isDig = true) :
    (ds ++ ':' :: tl).takeWhile isDig = ds := by
  induction ds with
  | nil => simp [List.takeWhile_cons]; decide
  | cons c cs ih =>
    simp only [List.all_cons, Bool.and_eq_true] at h
    simp [List.takeWhile_cons, h.1, ih h.2]

/-- Companion to `takeWhile_isDig_append` for `dropWhile`. -/
theorem dropWhile_isDig_append (ds tl : List Char) (h : ds.all isDig = true) :
    (ds ++ ':' :: tl).dropWhile isDig = ':' :: tl := by
  induction ds with
  | nil => simp [List.dropWhile_cons, show isDig ':' = false from rfl]
  | cons c cs ih =>
    simp only [List.all_cons, Bool.and_eq_true] at h
    simp [List.dropWhile_cons, h.1, ih h.2]

/-- `timeMatch` succeeds exactly on strings of the `TimeShapeNl` form, and
returns the numeric values of the three groups. -/
theorem timeMatch_some_iff (cs : List Char) (m ss ff : ℕ) :
    timeMatch cs = some (m, ss, ff) ↔
      ∃ ds a b c d, TimeShapeNl cs ds a b c d ∧
        m = digitsVal ds ∧ ss = 10 * dVal a + dVal b ∧ ff = 10 * dVal c + dVal d := by
  constructor
  · intro h
    unfold timeMatch at h
    split at h
    · exact absurd h (by simp)
    next hne =>
      split at h
      next a b c d rest heq =>
        split at h
        next hdig =>
          split at h
          next hrest =>
            simp only [Option.some_inj, Prod.mk.injEq] at h
            obtain ⟨h1, h2, h3⟩ := h
            simp only [Bool.and_eq_true] at hdig
            refine ⟨cs.takeWhile isDig, a, b, c, d,
              ⟨?_, hne, all_isDig_takeWhile cs,
                hdig.1.1.1, hdig.1.1.2, hdig.1.2, hdig.2⟩,
              h1.symm, h2.symm, h3.symm⟩
            rcases hrest with rfl | rfl
            · left
              conv_lhs => rw [← List.takeWhile_append_dropWhile isDig cs, heq]
            · right
              conv_lhs => rw [← List.takeWhile_append_dropWhile isDig cs, heq]
          · exact absurd h (by simp)
        · exact absurd h (by simp)
      · exact absurd h (by simp)
  · rintro ⟨ds, a, b, c, d, ⟨hcs, hne, hall, ha, hb, hc, hd⟩, rfl, rfl, rfl⟩
    rcases hcs with rfl | rfl <;>
      · unfold timeMatch
        rw [takeWhile_isDig_append ds _ hall, dropWhile_isDig_append ds _ hall]
        simp [hne, ha, hb, hc, hd]

/-- C9: `sanitize` is total and coincides with the spec's pipeline —
replace every reserved character `< > : " / \ | ? *` with `_`, then
replace every occurrence of the literal substring `..` with `__`, then
trim surrounding whitespace, with literal fallback `untitled` for an empty
result; in particular `sanitize("He: A/B?.flac") = "He_ A_B_.flac"`,
`sanitize("../../etc") = "______etc"` and `sanitize("   ") = "untitled"`. -/
theorem sanitize_matches_spec :
    (∀ s : String, sanitize_filename s = sanitizeSpec s)
    ∧ sanitize_filename "He: A/B?.flac" = "He_ A_B_.flac"
    ∧ sanitize_filename "../../etc" = "______etc"
    ∧ sanitize_filename "   " = "untitled" :=
  ⟨fun _ => rfl, by decide, by decide, by decide⟩

/-- C1: the claim (and the repository's own test
`test_titles_with_quotes_and_apostrophes`) expects the title parsed from
`TITLE "He said "Hello" today"` to keep the embedded quotes, but POSIX
`shlex` tokenization strips all quote characters while joining the
adjacent quoted/unquoted words: on the test's own CUE document the parsed
titles are `It's a test` and `He said Hello today` — without the quotes —
so the code contradicts its test. -/
theorem title_embedded_quotes_dropped :
    (parse_cue (fun _ => true)
        ["FILE \"audio.flac\" WAVE",
         "  TRACK 01 AUDIO",
         "    TITLE \"It's a test\"",
         "    INDEX 01 00:00:00",
         "  TRACK 02 AUDIO",
         "    TITLE \"He said \"Hello\" today\"",
         "    INDEX 01 00:01:00"]).map
      (fun sh => sh.entries.map (fun e => e.tracks.map (·.title))) =
      .ok [[some "It's a test", some "He said Hello today"]]
    ∧ (some "He said Hello today" : Option String) ≠
        some "He said \"Hello\" today" := by
  constructor
  · rfl
  · decide

/-- C4 (amended): `parse_timecode` accepts exactly the strings of the form
`minutes:seconds:frames` with seconds and frames each exactly two digits,
optionally followed by a single trailing newline (Python's `$` without
`re.MULTILINE` also matches just before a final newline); on a pattern
mismatch it fails with `FormatError`, on `seconds ≥ 60` or `frames ≥ 75`
with `RangeError` (so `"00:60:00"` and `"00:00:75"` each fail with
`RangeError`), and otherwise it returns the exact rational
`minutes*60 + seconds + frames/75` with no rounding. -/
theorem parse_timecode_characterization :
    (∀ cs : List Char, (¬ ∃ ds a b c d, TimeShapeNl cs ds a b c d) →
      parse_timecode ⟨cs⟩ = .error .formatError)
    ∧ (∀ cs ds a b c d, TimeShapeNl cs ds a b c d →
        60 ≤ 10 * dVal a + dVal b ∨ 75 ≤ 10 * dVal c + dVal d →
        parse_timecode ⟨cs⟩ = .error .rangeError)
    ∧ (∀ cs ds a b c d, TimeShapeNl cs ds a b c d →
        10 * dVal a + dVal b < 60 → 10 * dVal c + dVal d < 75 →
        parse_timecode ⟨cs⟩ =
          .ok ((digitsVal ds : ℚ) * 60 + ((10 * dVal a + dVal b : ℕ) : ℚ) +
            ((10 * dVal c + dVal d : ℕ) : ℚ) / 75))
    ∧ parse_timecode "00:60:00" = .error .rangeError
    ∧ parse_timecode "00:00:75" = .error .rangeError := by
  refine ⟨?_, ?_, ?_, by decide, by decide⟩
  · intro cs hno
    match h : timeMatch cs with
    | none => simp [parse_timecode, h]
    | some (m, ss, ff) =>
      obtain ⟨ds, a, b, c, d, hshape, _⟩ := (timeMatch_some_iff cs m ss ff).1 h
      exact absurd ⟨ds, a, b, c, d, hshape⟩ hno
  · intro cs ds a b c d hshape hrange
    have h : timeMatch cs =
        some (digitsVal ds, 10 * dVal a + dVal b, 10 * dVal c + dVal d) :=
      (timeMatch_some_iff cs _ _ _).2 ⟨ds, a, b, c, d, hshape, rfl, rfl, rfl⟩
    rcases hrange with hr | hr
    · simp [parse_timecode, h, hr]
    · by_cases hss : 60 ≤ 10 * dVal a + dVal b <;> simp [parse_timecode, h, hss, hr]
  · intro cs ds a b c d hshape hss hff
    have h : timeMatch cs =
        some (digitsVal ds, 10 * dVal a + dVal b, 10 * dVal c + dVal d) :=
      (timeMatch_some_iff cs _ _ _).2 ⟨ds, a, b, c, d, hshape, rfl, rfl, rfl⟩
    simp [parse_timecode, h, Nat.not_le.2 hss, Nat.not_le.2 hff]

/-- Counterexample for C4 as stated: `"00:00:00\n"` is not of the bare
`minutes:seconds:frames` shape — it carries a trailing newline — yet
`parse_timecode` accepts it and returns `0`, because Python's `$` anchor
also matches just before a final newline. -/
theorem parse_timecode_characterization_counterexample :
    parse_timecode "00:00:00\n" = .ok 0
    ∧ ¬ ∃ ds a b c d, TimeShape ("00:00:00\n".data) ds a b c d := by
  constructor
  · decide
  · rintro ⟨ds, a, b, c, d, hcs, -, -, -, -, -, hd⟩
    have h := congrArg List.getLast? hcs
    rw [show (':' :: a :: b :: ':' :: c :: d :: [] : List Char) =
          (':' :: a :: b :: ':' :: c :: []) ++ [d] from rfl,
        ← List.append_assoc, List.getLast?_concat] at h
    have h2 : ("00:00:00\n".data).getLast? = some '\n' := by decide
    rw [h2, Option.some_inj] at h
    rw [← h] at hd
    exact absurd hd (by decide)

/-- Witness for C4: the accepting case at the concrete input `01:02:03`
(1 minute, 2 seconds, 3 frames). -/
theorem parse_timecode_characterization_witness :
    parse_timecode "01:02:03" =
      .ok ((digitsVal ['0', '1'] : ℚ) * 60 + ((10 * dVal '0' + dVal '2' : ℕ) : ℚ) +
        ((10 * dVal '0' + dVal '3' : ℕ) : ℚ) / 75) :=
  parse_timecode_characterization.2.2.1 "01:02:03".data ['0', '1'] '0' '2' '0' '3'
    ⟨by decide, by decide, by decide, by decide, by decide, by decide, by decide⟩
    (by decide) (by decide)

/-- `>>=` on a successful `Except Unit` computation. -/
theorem exBindOk {β : Type} (k : PUnit → Except CueErr β) :
    (Except.ok PUnit.unit >>= k) = k PUnit.unit := rfl

/-- `>>=` on a failed `Except` computation. -/
theorem exBindErr {α β : Type} (e : CueErr) (k : α → Except CueErr β) :
    ((Except.error e : Except CueErr α) >>= k) = Except.error e := rfl

/-- `Except.bind` on a success. -/
theorem exBindOkV {α β : Type} (a : α) (k : α → Except CueErr β) :
    (Except.ok a).bind k = k a := rfl

/-- `Except.bind` on a failure. -/
theorem exBindErrV {α β : Type} (e : CueErr) (k : α → Except CueErr β) :
    (Except.error e : Except CueErr α).bind k = Except.error e := rfl

/-- Unfolding equation of `List.forM` on a cons cell. -/
theorem listForM_cons {α : Type} (f : α → Except CueErr Unit) (a : α)
    (as : List α) : List.forM (a :: as) f = f a >>= fun _ => List.forM as f :=
  rfl

/-- `forM` in `Except` succeeds iff every element does. -/
theorem forM_ok_iff {α : Type} (xs : List α) (f : α → Except CueErr Unit) :
    xs.forM f = .ok () ↔ ∀ x ∈ xs, f x = .ok () := by
  induction xs with
  | nil => exact ⟨fun _ x hx => absurd hx (List.not_mem_nil x), fun _ => rfl⟩
  | cons x xs ih =>
    rw [listForM_cons]
    cases hf : f x with
    | error e => simp [hf, exBindErr]
    | ok u => cases u; simp [hf, exBindOk, ih]

/-- `forM` in `Except` surfaces the first failing element's error. -/
theorem forM_first_error {α : Type} (xs : List α) (y : α) (ys : List α)
    (f : α → Except CueErr Unit) (e : CueErr)
    (h : ∀ x ∈ xs, f x = .ok ()) (hy : f y = .error e) :
    (xs ++ y :: ys).forM f = .error e := by
  induction xs with
  | nil => rw [List.nil_append, listForM_cons, hy, exBindErr]
  | cons x xs ih =>
    have hx := h x (by simp)
    rw [List.cons_append, listForM_cons, hx, exBindOk]
    exact ih fun a ha => h a (by simp [ha])

/-- `validTrack` succeeds iff title and start are set. -/
theorem validTrack_ok_iff (t : Track) :
    validTrack t = .ok () ↔ trackFilled t := by
  by_cases h1 : t.title = none <;> by_cases h2 : t.start = none <;>
    simp [validTrack, trackFilled, h1, h2]

/-- `validEntry` succeeds iff the entry is nonempty and all tracks filled. -/
theorem validEntry_ok_iff (e : FileEntry) :
    validEntry e = .ok () ↔ entryFilled e := by
  by_cases h : e.tracks = [] <;>
    simp [validEntry, entryFilled, h, forM_ok_iff, validTrack_ok_iff]

/-- `validateSheet` succeeds iff there is an entry and all are filled. -/
theorem validateSheet_ok_iff (es : List FileEntry) :
    validateSheet es = .ok () ↔ es ≠ [] ∧ ∀ e ∈ es, entryFilled e := by
  by_cases h : es = [] <;>
    simp [validateSheet, h, forM_ok_iff, validEntry_ok_iff]

/-- C2 (amended): whenever `parse_cue` returns a `CueSheet`, the sheet has
at least one `FileEntry`, every entry has at least one `Track`, and every
track has a set title (possibly empty) and a start timecode — but the
track number need not be positive and the title need not be nonempty.
The checks run once after the line loop: `parse_cue` is the loop followed
by `validateSheet`, which fails with `EmptySheetError` when no `FILE`
entry was produced, and otherwise reports the first violation in document
order — `EmptyFileError` for an entry with zero tracks, `MissingTitleError`
for a track without a title, `MissingIndexError` for a track with a title
but no start. -/
theorem parse_cue_validation :
    (∀ fs lines sheet, parse_cue fs lines = .ok sheet →
      sheet.entries ≠ [] ∧ ∀ e ∈ sheet.entries, e.tracks ≠ [] ∧
        ∀ t ∈ e.tracks, t.title ≠ none ∧ t.start ≠ none)
    ∧ (∀ fs lines s, runLines fs lines = .ok s →
        parse_cue fs lines =
          (validateSheet (closeEntries s)).bind fun _ =>
            .ok ⟨closeEntries s, s.album_title, s.album_performer⟩)
    ∧ validateSheet [] = .error .emptySheet
    ∧ (∀ pre e post, (∀ x ∈ pre, entryFilled x) → e.tracks = [] →
        validateSheet (pre ++ e :: post) = .error .emptyFile)
    ∧ (∀ pre e post ts₁ t ts₂, (∀ x ∈ pre, entryFilled x) →
        e.tracks = ts₁ ++ t :: ts₂ → (∀ x ∈ ts₁, trackFilled x) →
        t.title = none → validateSheet (pre ++ e :: post) = .error .missingTitle)
    ∧ (∀ pre e post ts₁ t ts₂, (∀ x ∈ pre, entryFilled x) →
        e.tracks = ts₁ ++ t :: ts₂ → (∀ x ∈ ts₁, trackFilled x) →
        t.title ≠ none → t.start = none →
        validateSheet (pre ++ e :: post) = .error .missingIndex) := by
  refine ⟨?_, ?_, rfl, ?_, ?_, ?_⟩
  · intro fs lines sheet h
    unfold parse_cue at h
    cases hr : runLines fs lines with
    | error e => rw [hr, exBindErrV] at h; exact absurd h (by simp)
    | ok s =>
      rw [hr, exBindOkV] at h
      cases hv : validateSheet (closeEntries s) with
      | error e => rw [hv, exBindErrV] at h; exact absurd h (by simp)
      | ok u =>
        cases u
        rw [hv, exBindOkV] at h
        simp only [Except.ok.injEq] at h
        obtain ⟨hne, hall⟩ := (validateSheet_ok_iff (closeEntries s)).1 hv
        subst h
        exact ⟨hne, fun e he => by
          obtain ⟨h1, h2⟩ := hall e he
          exact ⟨h1, fun t ht => (h2 t ht : trackFilled t)⟩⟩
  · intro fs lines s hr
    unfold parse_cue
    rw [hr]
    rfl
  · intro pre e post hpre he
    have hbad : validEntry e = .error .emptyFile := by simp [validEntry, he]
    unfold validateSheet
    rw [if_neg (by simp)]
    exact forM_first_error pre e post validEntry .emptyFile
      (fun x hx => (validEntry_ok_iff x).2 (hpre x hx)) hbad
  · intro pre e post ts₁ t ts₂ hpre he hts ht
    have hbad : validEntry e = .error .missingTitle := by
      have : validTrack t = .error .missingTitle := by simp [validTrack, ht]
      unfold validEntry
      rw [if_neg (by simp [he]), he]
      exact forM_first_error ts₁ t ts₂ validTrack .missingTitle
        (fun x hx => (validTrack_ok_iff x).2 (hts x hx)) this
    unfold validateSheet
    rw [if_neg (by simp)]
    exact forM_first_error pre e post validEntry .missingTitle
      (fun x hx => (validEntry_ok_iff x).2 (hpre x hx)) hbad
  · intro pre e post ts₁ t ts₂ hpre he hts ht hs
    have hbad : validEntry e = .error .missingIndex := by
      have : validTrack t = .error .missingIndex := by simp [validTrack, ht, hs]
      unfold validEntry
      rw [if_neg (by simp [he]), he]
      exact forM_first_error ts₁ t ts₂ validTrack .missingIndex
        (fun x hx => (validTrack_ok_iff x).2 (hts x hx)) this
    unfold validateSheet
    rw [if_neg (by simp)]
    exact forM_first_error pre e post validEntry .missingIndex
      (fun x hx => (validEntry_ok_iff x).2 (hpre x hx)) hbad

/-- Counterexample for C2 as stated: on the document below — whose `TRACK`
number is `00` and whose `TITLE` argument is the empty string — `parse_cue`
succeeds, returning a track with the non-positive number `0` and the empty
(but set) title `""`; the claim's "positive integer number" and "non-empty
title" both fail on the code, which never checks either. -/
theorem parse_cue_validation_counterexample :
    parse_cue (fun _ => true)
      ["FILE \"a.flac\" WAVE", "TRACK 00 AUDIO", "TITLE \"\"", "INDEX 01 00:00:00"] =
      .ok ⟨[⟨"a.flac", [⟨0, some "", none, some 0⟩]⟩], none, none⟩
    ∧ ¬ (0 : ℤ) > 0 ∧ (("" : String) = "") := by
  refine ⟨by decide, by decide, rfl⟩

/-- Witness for C2: the success invariant instantiated at a concrete
document that parses successfully. -/
theorem parse_cue_validation_witness :
    ({ entries := [⟨"a.flac", [⟨1, some "x", none, some 0⟩]⟩] } : CueSheet).entries ≠ [] ∧
    ∀ e ∈ ({ entries := [⟨"a.flac", [⟨1, some "x", none, some 0⟩]⟩] } : CueSheet).entries,
      e.tracks ≠ [] ∧ ∀ t ∈ e.tracks, t.title ≠ none ∧ t.start ≠ none :=
  parse_cue_validation.1 (fun _ => true)
    ["FILE \"a.flac\" WAVE", "TRACK 01 AUDIO", "TITLE \"x\"", "INDEX 01 00:00:00"]
    { entries := [⟨"a.flac", [⟨1, some "x", none, some 0⟩]⟩] } (by decide)

/-- `entryItems` yields one work item per track. -/
theorem entryItems_length (tg : Bool) (sheet : CueSheet) (m : Bool) (i : ℕ)
    (p : String) (ts : List Track) :
    (entryItems tg sheet m i p ts).length = ts.length := by
  induction ts with
  | nil => rfl
  | cons t rest ih => simp [entryItems, ih]

/-- The work items' starts are the tracks' starts, in order. -/
theorem entryItems_map_start (tg : Bool) (sheet : CueSheet) (m : Bool) (i : ℕ)
    (p : String) (ts : List Track) :
    (entryItems tg sheet m i p ts).map (·.startTime) = ts.map (·.start) := by
  induction ts with
  | nil => rfl
  | cons t rest ih => cases rest <;> simp_all [entryItems]

/-- The work items' ends are the next tracks' starts, the last absent. -/
theorem entryItems_map_end (tg : Bool) (sheet : CueSheet) (m : Bool) (i : ℕ)
    (p : String) (ts : List Track) :
    (entryItems tg sheet m i p ts).map (·.endTime) = nextEnds ts := by
  induction ts with
  | nil => rfl
  | cons t rest ih => cases rest <;> simp_all [entryItems, nextEnds]

/-- The last prescribed end time is always absent. -/
theorem nextEnds_getLast (ts : List Track) (h : ts ≠ []) :
    (nextEnds ts).getLast? = some none := by
  induction ts with
  | nil => exact absurd rfl h
  | cons t rest ih =>
    cases rest with
    | nil => rfl
    | cons t' r =>
      have h2 : (nextEnds (t' :: r)).getLast? = some none := ih (by simp)
      rw [show nextEnds (t :: t' :: r) = t'.start :: nextEnds (t' :: r) from rfl]
      cases r with
      | nil => rfl
      | cons s r' =>
        rw [show nextEnds (t' :: s :: r') = s.start :: nextEnds (s :: r') from rfl] at h2 ⊢
        rw [List.getLast?_cons_cons]
        exact h2

/-- C3 (amended): for every validated single-file `CueSheet` with `N`
tracks, the plan builder produces exactly `N` work items in track order;
the last item's end time is absent, every other item's end time equals the
next track's start within the file, and each item's start equals its
track's start — so the starts are strictly increasing exactly when the
sheet's track starts are (the parser and validator never check that order,
so it cannot be asserted unconditionally). -/
theorem split_plan_single_file (tg : Bool) (sheet : CueSheet) (e : FileEntry)
    (hsheet : sheet.entries = [e]) (hval : validateSheet sheet.entries = .ok ()) :
    (split_plan tg sheet).length = e.tracks.length
    ∧ (split_plan tg sheet).map (·.startTime) = e.tracks.map (·.start)
    ∧ (split_plan tg sheet).map (·.endTime) = nextEnds e.tracks
    ∧ (e.tracks ≠ [] →
        ((split_plan tg sheet).map (·.endTime)).getLast? = some none) := by
  have hplan : split_plan tg sheet =
      entryItems tg sheet (pairsLt (trackNumbers sheet)) 1 e.path e.tracks := by
    unfold split_plan
    rw [hsheet]
    simp [planFiles]
  refine ⟨?_, ?_, ?_, ?_⟩
  · rw [hplan, entryItems_length]
  · rw [hplan, entryItems_map_start]
  · rw [hplan, entryItems_map_end]
  · intro hne
    rw [hplan, entryItems_map_end]
    exact nextEnds_getLast e.tracks hne

/-- Counterexample for C3 as stated: the parser accepts out-of-order
`INDEX 01` times (nothing ever checks ordering), so a validated
single-file sheet can have decreasing starts — here track 1 starts at
2 s and track 2 at 1 s — and the work items' start times `[2, 1]` are not
strictly increasing. -/
theorem split_plan_single_file_counterexample :
    parse_cue (fun _ => true)
      ["FILE \"a.flac\" WAVE",
       "TRACK 01 AUDIO", "TITLE \"A\"", "INDEX 01 00:02:00",
       "TRACK 02 AUDIO", "TITLE \"B\"", "INDEX 01 00:01:00"] =
      .ok ⟨[⟨"a.flac", [⟨1, some "A", none, some 2⟩, ⟨2, some "B", none, some 1⟩]⟩],
        none, none⟩
    ∧ validateSheet
        [⟨"a.flac", [⟨1, some "A", none, some 2⟩, ⟨2, some "B", none, some 1⟩]⟩] =
      .ok ()
    ∧ (split_plan true
        ⟨[⟨"a.flac", [⟨1, some "A", none, some 2⟩, ⟨2, some "B", none, some 1⟩]⟩],
          none, none⟩).map (·.startTime) = [some 2, some 1]
    ∧ ¬ ((2 : ℚ) < 1) := by
  refine ⟨by decide, by decide, by decide, by decide⟩

/-- Witness for C3: the amended theorem applied to a concrete validated
single-file sheet with two tracks. -/
theorem split_plan_single_file_witness :
    (split_plan true
      ⟨[⟨"a.flac", [⟨1, some "A", none, some 0⟩, ⟨2, some "B", none, some 1⟩]⟩],
        none, none⟩).length =
      ([⟨1, some "A", none, some 0⟩, ⟨2, some "B", none, some 1⟩] : List Track).length
    ∧ (split_plan true
        ⟨[⟨"a.flac", [⟨1, some "A", none, some 0⟩, ⟨2, some "B", none, some 1⟩]⟩],
          none, none⟩).map (·.startTime) =
      ([⟨1, some "A", none, some 0⟩, ⟨2, some "B", none, some 1⟩] : List Track).map (·.start)
    ∧ (split_plan true
        ⟨[⟨"a.flac", [⟨1, some "A", none, some 0⟩, ⟨2, some "B", none, some 1⟩]⟩],
          none, none⟩).map (·.endTime) =
      nextEnds [⟨1, some "A", none, some 0⟩, ⟨2, some "B", none, some 1⟩]
    ∧ (([⟨1, some "A", none, some 0⟩, ⟨2, some "B", none, some 1⟩] : List Track) ≠ [] →
        ((split_plan true
          ⟨[⟨"a.flac", [⟨1, some "A", none, some 0⟩, ⟨2, some "B", none, some 1⟩]⟩],
            none, none⟩).map (·.endTime)).getLast? = some none) :=
  split_plan_single_file true
    ⟨[⟨"a.flac", [⟨1, some "A", none, some 0⟩, ⟨2, some "B", none, some 1⟩]⟩], none, none⟩
    ⟨"a.flac", [⟨1, some "A", none, some 0⟩, ⟨2, some "B", none, some 1⟩]⟩
    rfl (by decide)

/-- The name of every work item of one entry, as a map over its tracks. -/
theorem entryItems_map_name (tg : Bool) (sheet : CueSheet) (m : Bool) (i : ℕ)
    (p : String) (ts : List Track) :
    (entryItems tg sheet m i p ts).map (·.outputName) =
      ts.map (fun t =>
        (if m then pad2 t.number
         else pad2 (i : ℤ) ++ "-" ++ pad2 t.number) ++
        " - " ++ sanitize_filename (t.title.getD "") ++ ".flac") := by
  induction ts with
  | nil => rfl
  | cons t rest ih => cases rest <;> simp_all [entryItems, outName]

/-- The names produced by the outer loop are the spec's names. -/
theorem planFiles_map_name (tg : Bool) (sheet : CueSheet) (m : Bool) (i : ℕ)
    (es : List FileEntry) :
    (planFiles tg sheet m i es).map (·.outputName) = specNames m i es := by
  induction es generalizing i with
  | nil => rfl
  | cons e rest ih =>
    simp [planFiles, specNames, List.map_append, entryItems_map_name, ih]

/-- C5: the plan builder computes one sheet-wide monotonic flag that is
true iff, taking all tracks from all files in document order, every
adjacent pair of track numbers satisfies strict `<`; and each output
filename is `"<stem> - <sanitized title>.flac"` where the stem is the
zero-padded 2-digit track number when monotonic, and otherwise the
zero-padded 2-digit 1-based file index joined to the zero-padded 2-digit
track number by a hyphen (as `specNames` renders the spec's wording). -/
theorem split_plan_monotonic_names :
    (∀ nums : List ℤ, pairsLt nums = true ↔ List.Chain' (· < ·) nums)
    ∧ (∀ tg sheet, (split_plan tg sheet).map (·.outputName) =
        specNames (pairsLt (trackNumbers sheet)) 1 sheet.entries) := by
  constructor
  · intro nums
    induction nums with
    | nil => simp [pairsLt]
    | cons a rest ih =>
      cases rest with
      | nil => simp [pairsLt]
      | cons b r =>
        rw [show pairsLt (a :: b :: r) = (decide (a < b) && pairsLt (b :: r)) from rfl]
        simp [List.chain'_cons, ih]
  · intro tg sheet
    unfold split_plan
    exact planFiles_map_name tg sheet (pairsLt (trackNumbers sheet)) 1 sheet.entries

/-- A successful `stw` (startswith) check pins down the first characters. -/
theorem stw_get (l p : List Char) (h : stw l p = true) :
    ∀ i, i < p.length → l[i]? = p[i]? := by
  induction p generalizing l with
  | nil => intro i hi; simp at hi
  | cons pc ps ih =>
    cases l with
    | nil => exact absurd h (by simp [stw])
    | cons c cs =>
      rw [show stw (c :: cs) (pc :: ps) = (decide (c = pc) && stw cs ps) from rfl] at h
      simp only [Bool.and_eq_true, decide_eq_true_eq] at h
      intro i hi
      cases i with
      | zero => simp [h.1]
      | succ j => simpa using ih cs h.2 j (by simpa using hi)

/-- Two prefixes that disagree at some position cannot both match. -/
theorem stw_conflict (x p q : List Char) (i : ℕ) (hip : i < p.length)
    (hiq : i < q.length) (hne : p[i]? ≠ q[i]?) (hp : stw x p = true) :
    stw x q = false := by
  cases hq : stw x q with
  | false => rfl
  | true =>
    exact absurd ((stw_get x p hp i hip).symm.trans (stw_get x q hq i hiq)) hne

/-- A line whose uppercased first character is not `R` does not start with
`REM` (the `REM` check of the source is case-sensitive). -/
theorem stw_rem_false (l : List Char) (C : Char)
    (h : (l.map pyUpper)[0]? = some C) (hC : C ≠ 'R') :
    stw l "REM".data = false := by
  cases hR : stw l "REM".data with
  | false => rfl
  | true =>
    have e1 : l[0]? = some 'R' := by
      have := stw_get l "REM".data hR 0 (by decide)
      simpa using this
    rw [List.getElem?_map, e1] at h
    simp only [Option.map_some', Option.some.injEq] at h
    exact (hC h.symm).elim

/-- `>>=` on a successful `Except` computation (general payload). -/
theorem exBindOkM {α β : Type} (a : α) (k : α → Except CueErr β) :
    (Except.ok a >>= k) = k a := rfl

/-- `>>=` on a failed `Except` computation (general payload). -/
theorem exBindErrM {α β : Type} (e : CueErr) (k : α → Except CueErr β) :
    ((Except.error e : Except CueErr α) >>= k) = .error e := rfl

set_option maxHeartbeats 2000000 in
/-- C6: a `TITLE` line seen while no track is open sets `album_title` only
if it is still unset, and once set `album_title` is never overwritten by
any later line — a single loop step and the whole fold both preserve it,
even across `FILE` blocks; a `TITLE` seen while a track is open sets that
track's title; `PERFORMER` behaves symmetrically for `album_performer`
and the track's performer. -/
theorem title_performer_first_wins :
    (∀ fs s raw s', processLine fs s raw = .ok s' →
      ∀ t, s.album_title = some t → s'.album_title = some t)
    ∧ (∀ fs lines s s', List.foldlM (processLine fs) s lines = .ok s' →
        ∀ t, s.album_title = some t → s'.album_title = some t)
    ∧ (∀ fs s raw s', processLine fs s raw = .ok s' →
        ∀ t, s.album_performer = some t → s'.album_performer = some t)
    ∧ (∀ fs lines s s', List.foldlM (processLine fs) s lines = .ok s' →
        ∀ t, s.album_performer = some t → s'.album_performer = some t)
    ∧ (∀ fs s raw t0 t1 rest, s.curTrack = none → s.album_title = none →
        stw ((trimChars raw.data).map pyUpper) "TITLE ".data = true →
        shlexSplit (trimChars raw.data) = .ok (t0 :: t1 :: rest) →
        processLine fs s raw = .ok { s with album_title := some t1 })
    ∧ (∀ fs s raw t0 t1 rest, s.curTrack = none → s.album_title ≠ none →
        stw ((trimChars raw.data).map pyUpper) "TITLE ".data = true →
        shlexSplit (trimChars raw.data) = .ok (t0 :: t1 :: rest) →
        processLine fs s raw = .ok s)
    ∧ (∀ fs s raw t0 t1 rest tr, s.curTrack = some tr →
        stw ((trimChars raw.data).map pyUpper) "TITLE ".data = true →
        shlexSplit (trimChars raw.data) = .ok (t0 :: t1 :: rest) →
        processLine fs s raw =
          .ok { s with curTrack := some { tr with title := some t1 } })
    ∧ (∀ fs s raw t0 t1 rest, s.curTrack = none → s.album_performer = none →
        stw ((trimChars raw.data).map pyUpper) "PERFORMER ".data = true →
        shlexSplit (trimChars raw.data) = .ok (t0 :: t1 :: rest) →
        processLine fs s raw = .ok { s with album_performer := some t1 })
    ∧ (∀ fs s raw t0 t1 rest, s.curTrack = none → s.album_performer ≠ none →
        stw ((trimChars raw.data).map pyUpper) "PERFORMER ".data = true →
        shlexSplit (trimChars raw.data) = .ok (t0 :: t1 :: rest) →
        processLine fs s raw = .ok s)
    ∧ (∀ fs s raw t0 t1 rest tr, s.curTrack = some tr →
        stw ((trimChars raw.data).map pyUpper) "PERFORMER ".data = true →
        shlexSplit (trimChars raw.data) = .ok (t0 :: t1 :: rest) →
        processLine fs s raw =
          .ok { s with curTrack := some { tr with performer := some t1 } }) := by
  have step_t : ∀ fs s raw s', processLine fs s raw = .ok s' →
      ∀ t, s.album_title = some t → s'.album_title = some t := by
    intro fs s raw s' h t ht
    unfold processLine at h
    dsimp only [] at h
    repeat' split at h
    all_goals
      first
      | (injection h with h; subst h; exact ht)
      | (injection h with h; subst h; exfalso;
         rw [‹PState.album_title s = none›] at ht; cases ht)
      | injection h
  have step_p : ∀ fs s raw s', processLine fs s raw = .ok s' →
      ∀ t, s.album_performer = some t → s'.album_performer = some t := by
    intro fs s raw s' h t ht
    unfold processLine at h
    dsimp only [] at h
    repeat' split at h
    all_goals
      first
      | (injection h with h; subst h; exact ht)
      | (injection h with h; subst h; exfalso;
         rw [‹PState.album_performer s = none›] at ht; cases ht)
      | injection h
  have fold_t : ∀ fs lines s s', List.foldlM (processLine fs) s lines = .ok s' →
      ∀ t, s.album_title = some t → s'.album_title = some t := by
    intro fs lines
    induction lines with
    | nil =>
      intro s s' h t ht
      injection h with h
      exact h ▸ ht
    | cons l ls ih =>
      intro s s' h t ht
      rw [List.foldlM_cons] at h
      cases hstep : processLine fs s l with
      | error e => rw [hstep, exBindErrM] at h; exact absurd h (by simp)
      | ok s1 =>
        rw [hstep, exBindOkM] at h
        exact ih s1 s' h t (step_t fs s l s1 hstep t ht)
  have fold_p : ∀ fs lines s s', List.foldlM (processLine fs) s lines = .ok s' →
      ∀ t, s.album_performer = some t → s'.album_performer = some t := by
    intro fs lines
    induction lines with
    | nil =>
      intro s s' h t ht
      injection h with h
      exact h ▸ ht
    | cons l ls ih =>
      intro s s' h t ht
      rw [List.foldlM_cons] at h
      cases hstep : processLine fs s l with
      | error e => rw [hstep, exBindErrM] at h; exact absurd h (by simp)
      | ok s1 =>
        rw [hstep, exBindOkM] at h
        exact ih s1 s' h t (step_p fs s l s1 hstep t ht)
  refine ⟨step_t, fold_t, step_p, fold_p, ?_, ?_, ?_, ?_, ?_, ?_⟩
  · intro fs s raw t0 t1 rest hcur halb hT htok
    have hnil : ¬ (trimChars raw.data = []) := by
      intro he; rw [he] at hT; exact absurd hT (by decide)
    have h0 : ((trimChars raw.data).map pyUpper)[0]? = some 'T' := by
      have := stw_get _ _ hT 0 (by decide); simpa using this
    have hrem := stw_rem_false (trimChars raw.data) 'T' h0 (by decide)
    have hfile := stw_conflict ((trimChars raw.data).map pyUpper)
      "TITLE ".data "FILE ".data 0 (by decide) (by decide) (by decide) hT
    have htrack := stw_conflict ((trimChars raw.data).map pyUpper)
      "TITLE ".data "TRACK ".data 1 (by decide) (by decide) (by decide) hT
    unfold processLine
    dsimp only []
    rw [if_neg hnil, if_neg (by simp [hrem]), if_neg (by simp [hfile]),
      if_neg (by simp [htrack]), if_pos hT, htok, hcur]
    dsimp only []
    rw [if_pos halb]
  · intro fs s raw t0 t1 rest hcur halb hT htok
    have hnil : ¬ (trimChars raw.data = []) := by
      intro he; rw [he] at hT; exact absurd hT (by decide)
    have h0 : ((trimChars raw.data).map pyUpper)[0]? = some 'T' := by
      have := stw_get _ _ hT 0 (by decide); simpa using this
    have hrem := stw_rem_false (trimChars raw.data) 'T' h0 (by decide)
    have hfile := stw_conflict ((trimChars raw.data).map pyUpper)
      "TITLE ".data "FILE ".data 0 (by decide) (by decide) (by decide) hT
    have htrack := stw_conflict ((trimChars raw.data).map pyUpper)
      "TITLE ".data "TRACK ".data 1 (by decide) (by decide) (by decide) hT
    unfold processLine
    dsimp only []
    rw [if_neg hnil, if_neg (by simp [hrem]), if_neg (by simp [hfile]),
      if_neg (by simp [htrack]), if_pos hT, htok, hcur]
    dsimp only []
    rw [if_neg halb]
  · intro fs s raw t0 t1 rest tr hcur hT htok
    have hnil : ¬ (trimChars raw.data = []) := by
      intro he; rw [he] at hT; exact absurd hT (by decide)
    have h0 : ((trimChars raw.data).map pyUpper)[0]? = some 'T' := by
      have := stw_get _ _ hT 0 (by decide); simpa using this
    have hrem := stw_rem_false (trimChars raw.data) 'T' h0 (by decide)
    have hfile := stw_conflict ((trimChars raw.data).map pyUpper)
      "TITLE ".data "FILE ".data 0 (by decide) (by decide) (by decide) hT
    have htrack := stw_conflict ((trimChars raw.data).map pyUpper)
      "TITLE ".data "TRACK ".data 1 (by decide) (by decide) (by decide) hT
    unfold processLine
    dsimp only []
    rw [if_neg hnil, if_neg (by simp [hrem]), if_neg (by simp [hfile]),
      if_neg (by simp [htrack]), if_pos hT, htok, hcur]
  · intro fs s raw t0 t1 rest hcur halb hP htok
    have hnil : ¬ (trimChars raw.data = []) := by
      intro he; rw [he] at hP; exact absurd hP (by decide)
    have h0 : ((trimChars raw.data).map pyUpper)[0]? = some 'P' := by
      have := stw_get _ _ hP 0 (by decide); simpa using this
    have hrem := stw_rem_false (trimChars raw.data) 'P' h0 (by decide)
    have hfile := stw_conflict ((trimChars raw.data).map pyUpper)
      "PERFORMER ".data "FILE ".data 0 (by decide) (by decide) (by decide) hP
    have htrack := stw_conflict ((trimChars raw.data).map pyUpper)
      "PERFORMER ".data "TRACK ".data 0 (by decide) (by decide) (by decide) hP
    have htitle := stw_conflict ((trimChars raw.data).map pyUpper)
      "PERFORMER ".data "TITLE ".data 0 (by decide) (by decide) (by decide) hP
    unfold processLine
    dsimp only []
    rw [if_neg hnil, if_neg (by simp [hrem]), if_neg (by simp [hfile]),
      if_neg (by simp [htrack]), if_neg (by simp [htitle]), if_pos hP, htok, hcur]
    dsimp only []
    rw [if_pos halb]
  · intro fs s raw t0 t1 rest hcur halb hP htok
    have hnil : ¬ (trimChars raw.data = []) := by
      intro he; rw [he] at hP; exact absurd hP (by decide)
    have h0 : ((trimChars raw.data).map pyUpper)[0]? = some 'P' := by
      have := stw_get _ _ hP 0 (by decide); simpa using this
    have hrem := stw_rem_false (trimChars raw.data) 'P' h0 (by decide)
    have hfile := stw_conflict ((trimChars raw.data).map pyUpper)
      "PERFORMER ".data "FILE ".data 0 (by decide) (by decide) (by decide) hP
    have htrack := stw_conflict ((trimChars raw.data).map pyUpper)
      "PERFORMER ".data "TRACK ".data 0 (by decide) (by decide) (by decide) hP
    have htitle := stw_conflict ((trimChars raw.data).map pyUpper)
      "PERFORMER ".data "TITLE ".data 0 (by decide) (by decide) (by decide) hP
    unfold processLine
    dsimp only []
    rw [if_neg hnil, if_neg (by simp [hrem]), if_neg (by simp [hfile]),
      if_neg (by simp [htrack]), if_neg (by simp [htitle]), if_pos hP, htok, hcur]
    dsimp only []
    rw [if_neg halb]
  · intro fs s raw t0 t1 rest tr hcur hP htok
    have hnil : ¬ (trimChars raw.data = []) := by
      intro he; rw [he] at hP; exact absurd hP (by decide)
    have h0 : ((trimChars raw.data).map pyUpper)[0]? = some 'P' := by
      have := stw_get _ _ hP 0 (by decide); simpa using this
    have hrem := stw_rem_false (trimChars raw.data) 'P' h0 (by decide)
    have hfile := stw_conflict ((trimChars raw.data).map pyUpper)
      "PERFORMER ".data "FILE ".data 0 (by decide) (by decide) (by decide) hP
    have htrack := stw_conflict ((trimChars raw.data).map pyUpper)
      "PERFORMER ".data "TRACK ".data 0 (by decide) (by decide) (by decide) hP
    have htitle := stw_conflict ((trimChars raw.data).map pyUpper)
      "PERFORMER ".data "TITLE ".data 0 (by decide) (by decide) (by decide) hP
    unfold processLine
    dsimp only []
    rw [if_neg hnil, if_neg (by simp [hrem]), if_neg (by simp [hfile]),
      if_neg (by simp [htrack]), if_neg (by simp [htitle]), if_pos hP, htok, hcur]

/-- Witness for C6: a `TITLE` line processed while a track is open and the
album title is already set — the open track gets the title and the album
title is untouched. -/
theorem title_performer_first_wins_witness :
    processLine (fun _ => true)
      ⟨[], some "a.flac", [], some ⟨1, none, none, none⟩, some "Album", none⟩
      "TITLE \"New\"" =
      .ok ⟨[], some "a.flac", [], some ⟨1, some "New", none, none⟩,
        some "Album", none⟩ :=
  title_performer_first_wins.2.2.2.2.2.2.1 (fun _ => true)
    ⟨[], some "a.flac", [], some ⟨1, none, none, none⟩, some "Album", none⟩
    "TITLE \"New\"" "TITLE" "New" [] ⟨1, none, none, none⟩
    rfl (by decide) (by decide)

/-- `pyUpper` fixes whitespace characters. -/
theorem pyUpper_space_fix (c : Char) (h : pyIsSpace c = true) : pyUpper c = c := by
  simp only [pyIsSpace, Bool.or_eq_true, decide_eq_true_eq] at h
  rcases h with ((((rfl | rfl) | rfl) | rfl) | rfl) | rfl <;> decide

/-- Only the space character uppercases to a space. -/
theorem pyUpper_eq_space (c : Char) (h : pyUpper c = ' ') : c = ' ' := by
  cases hf : lowUp.find? (fun p => p.1 = c) with
  | none =>
    unfold pyUpper at h
    rw [hf] at h
    simpa using h
  | some p =>
    have hmem := List.mem_of_find?_eq_some hf
    have hall : ∀ q ∈ lowUp, q.2 ≠ ' ' := by decide
    unfold pyUpper at h
    rw [hf] at h
    simp only [Option.map_some', Option.getD_some] at h
    exact absurd h (hall p hmem)

/-- If the uppercased line starts with `kw` followed by a space (and `kw`
has no whitespace), then the line's first whitespace-delimited word
uppercases exactly to `kw`. -/
theorem firstWord_of_stw_up (kw : List Char) :
    ∀ l : List Char, kw.all (fun c => !pyIsSpace c) = true →
      stw (l.map pyUpper) (kw ++ [' ']) = true →
      (firstWord l).map pyUpper = kw := by
  induction kw with
  | nil =>
    intro l _ h
    cases l with
    | nil => exact absurd h (by decide)
    | cons e r =>
      have he : pyUpper e = ' ' := by
        rw [show stw ((e :: r).map pyUpper) ([] ++ [' ']) =
          (decide (pyUpper e = ' ') && stw (r.map pyUpper) []) from rfl] at h
        simp only [Bool.and_eq_true, decide_eq_true_eq] at h
        exact h.1
      have he' : e = ' ' := pyUpper_eq_space e he
      subst he'
      rw [firstWord, List.takeWhile_cons]
      simp [pyIsSpace]
  | cons k ks ih =>
    intro l hkw h
    cases l with
    | nil => exact absurd h (by simp [stw])
    | cons e r =>
      rw [show stw ((e :: r).map pyUpper) ((k :: ks) ++ [' ']) =
        (decide (pyUpper e = k) && stw (r.map pyUpper) (ks ++ [' '])) from rfl] at h
      simp only [Bool.and_eq_true, decide_eq_true_eq] at h
      simp only [List.all_cons, Bool.and_eq_true, Bool.not_eq_true'] at hkw
      have hes : pyIsSpace e = false := by
        cases hsp : pyIsSpace e with
        | false => rfl
        | true =>
          exfalso
          rw [pyUpper_space_fix e hsp] at h
          rw [h.1] at hsp
          rw [hsp] at hkw
          exact absurd hkw.1 (by simp)
      rw [firstWord, List.takeWhile_cons]
      simp only [hes, Bool.not_false, if_true, List.map_cons, h.1]
      exact congrArg (k :: ·) (ih r (by simpa using hkw.2) h.2)

/-- C10: for every non-blank input line whose leading keyword, compared
case-insensitively, is none of `FILE`, `TRACK`, `TITLE`, `PERFORMER` or
`INDEX` — `REM` comments in any letter case, unrecognized or misspelled
keywords — the parse loop raises no error and leaves the entire parse
state unchanged. -/
theorem unknown_lines_no_op :
    ∀ fs s raw, trimChars raw.data ≠ [] →
      (firstWord (trimChars raw.data)).map pyUpper ∉
        (["FILE", "TRACK", "TITLE", "PERFORMER", "INDEX"].map String.data) →
      processLine fs s raw = .ok s := by
  intro fs s raw hnil hkw
  have hlist : ∀ kw : List Char, kw.all (fun c => !pyIsSpace c) = true →
      kw ∈ (["FILE", "TRACK", "TITLE", "PERFORMER", "INDEX"].map String.data) →
      stw ((trimChars raw.data).map pyUpper) (kw ++ [' ']) = false := by
    intro kw hks hmem
    cases hc : stw ((trimChars raw.data).map pyUpper) (kw ++ [' ']) with
    | false => rfl
    | true =>
      exact absurd (firstWord_of_stw_up kw (trimChars raw.data) hks hc ▸ hmem) hkw
  unfold processLine
  dsimp only []
  rw [if_neg hnil]
  cases hrem : stw (trimChars raw.data) "REM".data with
  | true => rfl
  | false =>
    have hFILE : stw ((trimChars raw.data).map pyUpper) "FILE ".data = false :=
      hlist "FILE".data (by decide) (by decide)
    have hTRACK : stw ((trimChars raw.data).map pyUpper) "TRACK ".data = false :=
      hlist "TRACK".data (by decide) (by decide)
    have hTITLE : stw ((trimChars raw.data).map pyUpper) "TITLE ".data = false :=
      hlist "TITLE".data (by decide) (by decide)
    have hPERF : stw ((trimChars raw.data).map pyUpper) "PERFORMER ".data = false :=
      hlist "PERFORMER".data (by decide) (by decide)
    have hINDEX : stw ((trimChars raw.data).map pyUpper) "INDEX ".data = false :=
      hlist "INDEX".data (by decide) (by decide)
    rw [if_neg (by simp), if_neg (by simp [hFILE]), if_neg (by simp [hTRACK]),
      if_neg (by simp [hTITLE]), if_neg (by simp [hPERF]),
      if_neg (by simp [hINDEX])]

/-- Witness for C10: a lowercase `rem` comment line (not matched by the
case-sensitive `REM` check) and, through the same theorem, no state
change on it. -/
theorem unknown_lines_no_op_witness :
    processLine (fun _ => true) initState "rem some comment" = .ok initState :=
  unknown_lines_no_op (fun _ => true) initState "rem some comment"
    (by decide) (by decide)

/-- `roundHE` of an integer is that integer. -/
theorem roundHE_intCast (n : ℤ) : roundHE (n : ℚ) = n := by
  unfold roundHE
  rw [Int.floor_intCast]
  norm_num

/-- `roundHU` of an integer is that integer. -/
theorem roundHU_intCast (n : ℤ) : roundHU (n : ℚ) = n := by
  unfold roundHU
  by_cases h : (0 : ℚ) ≤ (n : ℚ)
  · rw [if_pos h, add_comm, Int.floor_add_int]
    norm_num
  · rw [if_neg h]
    rw [show -(n : ℚ) + 1/2 = 1/2 + (-n : ℤ) from by push_cast; ring]
    rw [Int.floor_add_int]
    norm_num

/-- `roundHE` of a non-negative rational is non-negative. -/
theorem roundHE_nonneg (v : ℚ) (h : 0 ≤ v) : 0 ≤ roundHE v := by
  have hf : (0 : ℤ) ≤ ⌊v⌋ := Int.floor_nonneg.2 h
  unfold roundHE
  dsimp only []
  split_ifs <;> omega

/-- `roundHU` of a non-negative rational is non-negative. -/
theorem roundHU_nonneg (v : ℚ) (h : 0 ≤ v) : 0 ≤ roundHU v := by
  unfold roundHU
  rw [if_pos h]
  exact Int.floor_nonneg.2 (by linarith)

/-- `div18` preserves non-negativity. -/
theorem div18_nonneg (v : ℚ) (h : 0 ≤ v) : 0 ≤ div18 v := by
  unfold div18
  split_ifs with h0 hpos
  · exact le_refl 0
  · exact mul_nonneg
      (by exact_mod_cast roundHE_nonneg _ (mul_nonneg h (zpow_nonneg (by norm_num) _)))
      (zpow_nonneg (by norm_num) _)
  · exact absurd (lt_of_le_of_ne h (Ne.symm h0)) hpos

/-- Digit-count bound: a number below `10 ^ k` has at most `k` digits. -/
theorem digLenF_le : ∀ fuel n k : ℕ, 1 ≤ k → n < 10 ^ k → n ≤ fuel →
    digLenF fuel n ≤ k := by
  intro fuel
  induction fuel with
  | zero => intro n k hk _ _; simpa [digLenF] using hk
  | succ f ih =>
    intro n k hk hn hf
    rw [digLenF]
    split
    · exact hk
    next h10 =>
      have h10' : 10 ≤ n := by omega
      have hk2 : 2 ≤ k := by
        rcases k with _ | _ | k
        · omega
        · exact absurd hn (by simpa using h10')
        · omega
      have hdiv : n / 10 < 10 ^ (k - 1) := by
        rw [Nat.div_lt_iff_lt_mul (by norm_num)]
        calc n < 10 ^ k := hn
        _ = 10 ^ (k - 1) * 10 := by
            rw [← pow_succ]
            congr 1
            omega
      have hfn : n / 10 ≤ f := by
        have := Nat.div_lt_self (by omega : 0 < n) (by norm_num : 1 < 10)
        omega
      have := ih (n / 10) (k - 1) (by omega) hdiv hfn
      omega

/-- The adjusted exponent of a positive rational below `10 ^ 12` is at
most `11`. -/
theorem adjExp_le (q : ℚ) (hq : 0 < q) (h : q < 10 ^ 12) : adjExp q ≤ 11 := by
  unfold adjExp
  split_ifs with h1
  · have hfl : ⌊q⌋₊ < 10 ^ 12 := by
      have hle : (⌊q⌋₊ : ℚ) ≤ q := Nat.floor_le hq.le
      have : (⌊q⌋₊ : ℚ) < ((10 ^ 12 : ℕ) : ℚ) := by push_cast; linarith
      exact_mod_cast this
    have := digLenF_le ⌊q⌋₊ ⌊q⌋₊ 12 (by norm_num) hfl le_rfl
    rw [show digLen ⌊q⌋₊ = digLenF ⌊q⌋₊ ⌊q⌋₊ from rfl]
    omega
  · have : (0 : ℤ) ≤ (natClog10 ⌈q⁻¹⌉₊ : ℤ) := Int.natCast_nonneg _
    omega

/-- A value with at most six fractional digits whose 6-digit coefficient
fits in 18 digits is exactly representable under the 18-significant-digit
context: the division rounding leaves it unchanged. -/
theorem div18_exact (c : ℕ) (hc : c < 10 ^ 18) :
    div18 ((c : ℚ) / 1000000) = (c : ℚ) / 1000000 := by
  rcases Nat.eq_zero_or_pos c with rfl | hpos
  · norm_num [div18]
  have hq0 : (0 : ℚ) < (c : ℚ) / 1000000 := by positivity
  have h10 : (10 : ℚ) ≠ 0 := by norm_num
  set q : ℚ := (c : ℚ) / 1000000 with hq
  have hqlt : q < 10 ^ 12 := by
    rw [hq, div_lt_iff (by norm_num)]
    have : (c : ℚ) < ((10 : ℚ)) ^ 18 := by exact_mod_cast hc
    calc (c : ℚ) < 10 ^ 18 := this
    _ = 10 ^ 12 * 1000000 := by norm_num
  have ha : adjExp q ≤ 11 := adjExp_le q hq0 hqlt
  set a : ℤ := adjExp q with haa
  set k : ℕ := (11 - a).toNat with hk
  have hka : (k : ℤ) = 11 - a := Int.toNat_of_nonneg (by omega)
  have e1 : q * (10 : ℚ) ^ ((17 : ℤ) - a) = ((c * 10 ^ k : ℕ) : ℚ) := by
    have s1 : (10 : ℚ) ^ ((17 : ℤ) - a) = (10 : ℚ) ^ ((k : ℤ)) * 10 ^ (6 : ℤ) := by
      rw [← zpow_add₀ h10]
      congr 1
      omega
    have s2 : (10 : ℚ) ^ (6 : ℤ) = 1000000 := by norm_num
    have s3 : (10 : ℚ) ^ ((k : ℤ)) = ((10 ^ k : ℕ) : ℚ) := by
      rw [zpow_natCast]
      push_cast
      ring
    rw [hq, s1, s2, s3]
    push_cast
    field_simp
    ring
  have e2 : div18 q = q := by
    unfold div18
    rw [if_neg (ne_of_gt hq0), if_pos hq0]
    unfold div18Pos
    rw [← haa, e1]
    rw [show ((c * 10 ^ k : ℕ) : ℚ) = (((c * 10 ^ k : ℕ) : ℤ) : ℚ) from by push_cast; ring]
    rw [roundHE_intCast]
    have s3 : (((c * 10 ^ k : ℕ) : ℤ) : ℚ) = (c : ℚ) * (10 : ℚ) ^ ((k : ℤ)) := by
      rw [zpow_natCast]
      push_cast
      ring
    rw [s3, mul_assoc, ← zpow_add₀ h10]
    rw [show (k : ℤ) + (a - 17) = -(6 : ℤ) from by omega]
    rw [hq]
    rw [show (10 : ℚ) ^ (-(6 : ℤ)) = 1 / 1000000 from by norm_num]
    ring
  exact e2

/-- C8 (amended): for every non-negative rational Timecode value that the
18-significant-digit division context represents exactly (`div18 v = v`)
and whose 6-fractional-digit coefficient fits in 18 digits,
`format_for_transcoder` returns the decimal rendering with exactly six
fractional digits rounded half-up, ties away from zero (`renderHU6`).
Outside those bounds the `prec = 18` context double-rounds or signals
`InvalidOperation`, so the claim cannot hold for every rational. -/
theorem fraction_to_timestamp_halfup (v : ℚ) (h0 : 0 ≤ v)
    (hex : div18 v = v)
    (hfit : (roundHU (v * 1000000)).natAbs < 10 ^ 18) :
    fraction_to_timestamp v = some (renderHU6 v) := by
  unfold fraction_to_timestamp renderHU6
  dsimp only []
  rw [hex, if_pos hfit]

/-- Counterexample for C8 as stated: at `10^13` the quantize step needs a
20-digit coefficient and the code signals `InvalidOperation` (returns no
string at all); at `100000000000.0000005` the division first rounds
half-even to 18 significant digits, so the code prints `...000000` where
the claimed half-up rendering is `...000001`. -/
theorem fraction_to_timestamp_halfup_counterexample :
    fraction_to_timestamp ((10 : ℚ) ^ 13) = none
    ∧ fraction_to_timestamp ((200000000000000001 : ℚ) / 2000000) =
        some "100000000000.000000"
    ∧ renderHU6 ((200000000000000001 : ℚ) / 2000000) = "100000000000.000001"
    ∧ ("100000000000.000000" : String) ≠ "100000000000.000001" := by
  refine ⟨by decide, by decide, by decide, by decide⟩

/-- Witness for C8: the amended theorem at the concrete value `1/2`,
which formats to `0.500000`. -/
theorem fraction_to_timestamp_halfup_witness :
    fraction_to_timestamp (1/2 : ℚ) = some (renderHU6 (1/2 : ℚ)) :=
  fraction_to_timestamp_halfup (1/2) (by norm_num) (by decide) (by decide)

/-- Inversion of a successful `parse_timecode`. -/
theorem parse_timecode_ok_inv (s : String) (v : ℚ)
    (h : parse_timecode s = .ok v) :
    ∃ m ss ff, timeMatch s.data = some (m, ss, ff) ∧ ss < 60 ∧ ff < 75 ∧
      v = (m : ℚ) * 60 + (ss : ℚ) + (ff : ℚ) / 75 := by
  unfold parse_timecode at h
  split at h
  · exact absurd h (by simp)
  next m ss ff heq =>
    by_cases h1 : ss ≥ 60
    · rw [if_pos h1] at h
      exact absurd h (by simp)
    · rw [if_neg h1] at h
      by_cases h2 : ff ≥ 75
      · rw [if_pos h2] at h
        exact absurd h (by simp)
      · rw [if_neg h2] at h
        simp only [Except.ok.injEq] at h
        exact ⟨m, ss, ff, heq, by omega, by omega, h.symm⟩

/-- Distinct in-range timecode triples give distinct rationals. -/
theorem timeVal_inj (m ss ff n ss' ff' : ℕ)
    (h1 : ss < 60) (h2 : ff < 75) (h3 : ss' < 60) (h4 : ff' < 75)
    (he : (m : ℚ) * 60 + (ss : ℚ) + (ff : ℚ) / 75 =
        (n : ℚ) * 60 + (ss' : ℚ) + (ff' : ℚ) / 75) :
    m = n ∧ ss = ss' ∧ ff = ff' := by
  have h75 : ((4500 * m + 75 * ss + ff : ℕ) : ℚ) =
      ((4500 * n + 75 * ss' + ff' : ℕ) : ℚ) := by
    push_cast
    linear_combination 75 * he
  have hnat : 4500 * m + 75 * ss + ff = 4500 * n + 75 * ss' + ff' := by
    exact_mod_cast h75
  omega

/-- C7 (amended): `parse_timecode` is injective as a function of the
parsed numeric triple — two accepted strings with equal values have equal
`timeMatch` components (as strings it is not injective: leading zeros in
the minutes field give distinct spellings of the same value) — and
whenever `format_for_transcoder` succeeds on a parsed value, the output
is the rendering of a 6-fractional-digit decimal that re-parses and
re-formats to exactly the same string. -/
theorem parse_timecode_roundtrip :
    (∀ s t v w, parse_timecode s = .ok v → parse_timecode t = .ok w →
      v = w → timeMatch s.data = timeMatch t.data)
    ∧ (∀ s v out, parse_timecode s = .ok v →
        fraction_to_timestamp v = some out →
        ∃ c : ℤ, 0 ≤ c ∧ out = renderDec6 c ∧
          fraction_to_timestamp ((c : ℚ) / 1000000) = some out) := by
  constructor
  · intro s t v w hs ht hvw
    obtain ⟨m, ss, ff, hm, hs1, hs2, hv⟩ := parse_timecode_ok_inv s v hs
    obtain ⟨n, ss', ff', hn, ht1, ht2, hw⟩ := parse_timecode_ok_inv t w ht
    obtain ⟨rfl, rfl, rfl⟩ :=
      timeVal_inj m ss ff n ss' ff' hs1 hs2 ht1 ht2 (by rw [← hv, ← hw, hvw])
    rw [hm, hn]
  · intro s v out hp hf
    obtain ⟨m, ss, ff, _, _, _, hv⟩ := parse_timecode_ok_inv s v hp
    have hv0 : 0 ≤ v := by rw [hv]; positivity
    unfold fraction_to_timestamp at hf
    dsimp only [] at hf
    by_cases hlt : (roundHU (div18 v * 1000000)).natAbs < 10 ^ 18
    · rw [if_pos hlt] at hf
      set c := roundHU (div18 v * 1000000) with hc
      have hout : out = renderDec6 c := by
        injection hf with hf
        exact hf.symm
      have hc0 : 0 ≤ c :=
        roundHU_nonneg _ (mul_nonneg (div18_nonneg v hv0) (by norm_num))
      refine ⟨c, hc0, hout, ?_⟩
      have hnat : ((c.natAbs : ℕ) : ℚ) = (c : ℚ) := by
        rw [← @Int.cast_natCast ℚ _ c.natAbs, Int.natAbs_of_nonneg hc0]
      have hex : div18 ((c : ℚ) / 1000000) = (c : ℚ) / 1000000 := by
        rw [← hnat]
        exact div18_exact c.natAbs hlt
      unfold fraction_to_timestamp
      dsimp only []
      rw [hex]
      have hrnd : roundHU ((c : ℚ) / 1000000 * 1000000) = c := by
        rw [div_mul_cancel₀ _ (by norm_num : (1000000 : ℚ) ≠ 0)]
        exact roundHU_intCast c
      rw [hrnd, if_pos hlt, hout]
    · rw [if_neg hlt] at hf
      exact absurd hf (by simp)

/-- Counterexample for C7 as stated: the minutes group `\d+` admits
leading zeros, so the distinct valid strings `0:00:00` and `00:00:00`
both parse to the rational `0` — `parse_timecode` is not injective on
strings; and for a large parsed value (`30000000000:00:00`, i.e.
`1.8·10^12` seconds) `format_for_transcoder` raises instead of producing
a re-parsable 6-digit string, so unconditional stability also fails. -/
theorem parse_timecode_roundtrip_counterexample :
    parse_timecode "0:00:00" = .ok 0
    ∧ parse_timecode "00:00:00" = .ok 0
    ∧ ("0:00:00" : String) ≠ "00:00:00"
    ∧ parse_timecode "30000000000:00:00" = .ok 1800000000000
    ∧ fraction_to_timestamp (1800000000000 : ℚ) = none := by
  refine ⟨by decide, by decide, by decide, by decide, by decide⟩

/-- Witness for C7: the stability conjunct at the parsed value of
`00:00:01` (one frame, `1/75` s), which formats to `0.013333`. -/
theorem parse_timecode_roundtrip_witness :
    ∃ c : ℤ, 0 ≤ c ∧ "0.013333" = renderDec6 c ∧
      fraction_to_timestamp ((c : ℚ) / 1000000) = some "0.013333" :=
  parse_timecode_roundtrip.2 "00:00:01" (1/75) "0.013333" (by decide) (by decide)
